import Mathlib

/-!
# Verification of the command/event registration and dispatch core

Shallow embedding of the declarative command/event registration pipeline:
the decorator metadata registry (`Command.decorator.ts`, `Event.decorator.ts`,
`Guards.decorator.ts`, `Cooldown.decorator.ts`), the base abstractions
(`BaseCommand`, `BaseEvent`), the interaction dispatcher
(`InteractionCreateEvent.handleCommand`) and the event registration wrapper
(`ExtendedClient.registerEvent`).

JavaScript objects become Lean structures; `undefined` becomes `Option.none`;
JS `Map` becomes an association list with first-key-wins lookup and in-place
replacement on set; epoch milliseconds become `Nat`.  External asynchronous
calls (message sends, the handler body, the database write) are modelled by
oracle outcomes carried in an environment record, and every observable side
effect is recorded in an event trace.  A thrown/rejected JS error is an
`Except.error`.
-/

namespace Disbot

/-- Association-list lookup, mirroring JS `Map.prototype.get`
(first matching key wins; maps built here never hold duplicate keys). -/
def assocGet {α : Type} (m : List (String × α)) (k : String) : Option α :=
  match m with
  | [] => none
  | (k', v) :: rest => if k' = k then some v else assocGet rest k

/-- Association-list insertion, mirroring JS `Map.prototype.set`:
replace the entry in place when the key is present, append otherwise. -/
def assocSet {α : Type} (m : List (String × α)) (k : String) (v : α) :
    List (String × α) :=
  match m with
  | [] => [(k, v)]
  | (k', v') :: rest =>
    if k' = k then (k, v) :: rest else (k', v') :: assocSet rest k v

theorem assocGet_assocSet_self {α : Type} (m : List (String × α)) (k : String) (v : α) :
    assocGet (assocSet m k v) k = some v := by
  induction m with
  | nil => simp [assocGet, assocSet]
  | cons hd tl ih =>
    by_cases h : hd.1 = k
    · simp [assocGet, assocSet, h]
    · simp [assocGet, assocSet, h, ih]

theorem assocGet_assocSet_other {α : Type} (m : List (String × α)) (k k' : String)
    (v : α) (hne : k' ≠ k) : assocGet (assocSet m k v) k' = assocGet m k' := by
  induction m with
  | nil => simp [assocGet, assocSet, Ne.symm hne]
  | cons hd tl ih =>
    by_cases h : hd.1 = k
    · subst h
      simp [assocGet, assocSet, Ne.symm hne]
    · simp [assocGet, assocSet, h, ih]

/-- `CommandMetadata` from `ICommand.ts`.  Optional interface fields are
`Option`s; `@Command` fills only `name` and `description`. -/
structure CommandMetadata where
  name : String
  description : String
  options : Option (List String) := none
  defaultMemberPermissions : Option String := none
  dmPermission : Option Bool := none
  nsfw : Option Bool := none
  guildOnly : Option Bool := none
  ownerOnly : Option Bool := none
  userInstallable : Option Bool := none
  contexts : Option (List Nat) := none
  integrationTypes : Option (List Nat) := none
deriving DecidableEq, Repr

/-- `GuardOptions` from `Guards.decorator.ts`. -/
structure GuardOptions where
  permissions : Option (List String) := none
  guildOnly : Option Bool := none
  dmOnly : Option Bool := none
  ownerOnly : Option Bool := none
  nsfw : Option Bool := none
deriving DecidableEq, Repr

/-- `EventMetadata` from `IEvent.ts`. -/
structure EventMetadata where
  name : String
  once : Bool
deriving DecidableEq, Repr

/-- The reflect-metadata side table attached to one class identity: the
values stored under the `command`, `guards`, `cooldown` and `event` keys. -/
structure RegistryEntry where
  command : Option CommandMetadata := none
  guards : Option GuardOptions := none
  cooldown : Option Nat := none
  event : Option EventMetadata := none
deriving DecidableEq, Repr

/-- A class identity before any decorator ran: no metadata at all. -/
def emptyRegistry : RegistryEntry := {}

/-- `@Command(name, description)`: store a fresh record holding only
name and description (overwrite semantics). -/
def Command (name description : String) (reg : RegistryEntry) : RegistryEntry :=
  { reg with command := some { name := name, description := description } }

/-- `@RequirePermissions(...permissions)`: concatenate onto the existing
permission list (created as `[]` when absent); other guard fields kept. -/
def RequirePermissions (permissions : List String) (reg : RegistryEntry) :
    RegistryEntry :=
  let existingGuards := reg.guards.getD {}
  { reg with guards := some { existingGuards with
      permissions := some ((existingGuards.permissions.getD []) ++ permissions) } }

/-- `@GuildOnly()`: set the `guildOnly` guard flag to `true`. -/
def GuildOnly (reg : RegistryEntry) : RegistryEntry :=
  let existingGuards := reg.guards.getD {}
  { reg with guards := some { existingGuards with guildOnly := some true } }

/-- `@DMOnly()`: set the `dmOnly` guard flag to `true`. -/
def DMOnly (reg : RegistryEntry) : RegistryEntry :=
  let existingGuards := reg.guards.getD {}
  { reg with guards := some { existingGuards with dmOnly := some true } }

/-- `@OwnerOnly()`: set the `ownerOnly` guard flag to `true`. -/
def OwnerOnly (reg : RegistryEntry) : RegistryEntry :=
  let existingGuards := reg.guards.getD {}
  { reg with guards := some { existingGuards with ownerOnly := some true } }

/-- `@NSFW()`: set the `nsfw` guard flag to `true`. -/
def NSFW (reg : RegistryEntry) : RegistryEntry :=
  let existingGuards := reg.guards.getD {}
  { reg with guards := some { existingGuards with nsfw := some true } }

/-- `@Cooldown(milliseconds)`: overwrite semantics. -/
def Cooldown (milliseconds : Nat) (reg : RegistryEntry) : RegistryEntry :=
  { reg with cooldown := some milliseconds }

/-- `@Event(name, once)`: store a fresh record (overwrite semantics). -/
def Event (name : String) (once : Bool) (reg : RegistryEntry) : RegistryEntry :=
  { reg with event := some { name := name, once := once } }

/-- One decorator application, as data, so that arbitrary decoration
sequences can be quantified over. -/
inductive AttachCall
  | command (name description : String)
  | requirePermissions (permissions : List String)
  | guildOnly
  | dmOnly
  | ownerOnly
  | nsfw
  | cooldown (milliseconds : Nat)
  | event (name : String) (once : Bool)
deriving DecidableEq, Repr

/-- Run one `AttachCall` against the registry entry. -/
def applyCall (reg : RegistryEntry) : AttachCall → RegistryEntry
  | .command n d => Command n d reg
  | .requirePermissions ps => RequirePermissions ps reg
  | .guildOnly => GuildOnly reg
  | .dmOnly => DMOnly reg
  | .ownerOnly => OwnerOnly reg
  | .nsfw => NSFW reg
  | .cooldown ms => Cooldown ms reg
  | .event n o => Event n o reg

/-- Run a whole decoration sequence, in call order. -/
def applyCalls (reg : RegistryEntry) (calls : List AttachCall) : RegistryEntry :=
  calls.foldl applyCall reg

/-- The name/description pair of the last `@Command` call of the sequence. -/
def lastCommandCall : List AttachCall → Option (String × String)
  | [] => none
  | c :: rest =>
    match lastCommandCall rest with
    | some p => some p
    | none =>
      match c with
      | .command n d => some (n, d)
      | _ => none

/-- The name/once pair of the last `@Event` call of the sequence. -/
def lastEventCall : List AttachCall → Option (String × Bool)
  | [] => none
  | c :: rest =>
    match lastEventCall rest with
    | some p => some p
    | none =>
      match c with
      | .event n o => some (n, o)
      | _ => none

/-- Whether the sequence contains a `@RequirePermissions` call. -/
def hasPermCall : List AttachCall → Bool
  | [] => false
  | .requirePermissions _ :: _ => true
  | _ :: rest => hasPermCall rest

/-- All permission arguments of the sequence, concatenated in call order. -/
def permCat : List AttachCall → List String
  | [] => []
  | .requirePermissions ps :: rest => ps ++ permCat rest
  | _ :: rest => permCat rest

/-- The permission list visible through the guard record, if any. -/
def permsOf (reg : RegistryEntry) : Option (List String) :=
  reg.guards.bind GuardOptions.permissions

/-- Read one boolean guard field through the optional guard record. -/
def regFlag (reg : RegistryEntry) (f : GuardOptions → Option Bool) : Option Bool :=
  reg.guards.bind f

/-- The `Error` thrown by `BaseCommand`/`BaseEvent` construction when the
class carries no `@Command`/`@Event` metadata (the spec's DefinitionError). -/
inductive DefinitionError
  | missingCommandDecorator
  | missingEventDecorator
deriving DecidableEq, Repr

/-- The three field writes of the `if (this.guards)` block of the
`BaseCommand` constructor: `x ?? y` on optional booleans is `x <|> y`.
Note `dmOnly` is not among them and `CommandMetadata` has no such field. -/
def mergeGuards (m : CommandMetadata) : Option GuardOptions → CommandMetadata
  | none => m
  | some g =>
    { m with
      guildOnly := g.guildOnly <|> m.guildOnly,
      ownerOnly := g.ownerOnly <|> m.ownerOnly,
      nsfw := g.nsfw <|> m.nsfw }

/-- The fields of a constructed `BaseCommand` (the `client` reference is an
external collaborator and is not modelled). -/
structure BaseCommand where
  metadata : CommandMetadata
  cooldowns : List (String × Nat)
  permissions : Option (List String)
  guards : Option GuardOptions
  cooldownMs : Option Nat
deriving DecidableEq, Repr

/-- The `BaseCommand` constructor.  `this.metadata = commandMetadata`
aliases the registry-held record, and the guard-flag writes go through that
alias, so the post-construction registry entry carries the merged record:
the second component of the result is the registry entry as left behind. -/
def constructBaseCommand (reg : RegistryEntry) :
    Except DefinitionError (BaseCommand × RegistryEntry) :=
  match reg.command with
  | none => .error .missingCommandDecorator
  | some commandMetadata =>
    let guards := reg.guards
    let cooldownMs := reg.cooldown
    let metadata := mergeGuards commandMetadata guards
    let permissions :=
      match guards with
      | some g => g.permissions
      | none => none
    .ok
      ({ metadata := metadata, cooldowns := [], permissions := permissions,
         guards := guards, cooldownMs := cooldownMs },
       { reg with command := some metadata })

/-- The fields of a constructed `BaseEvent`. -/
structure BaseEvent where
  metadata : EventMetadata
deriving DecidableEq, Repr

/-- The `BaseEvent` constructor: throws when no `@Event` metadata exists. -/
def constructBaseEvent (reg : RegistryEntry) : Except DefinitionError BaseEvent :=
  match reg.event with
  | none => .error .missingEventDecorator
  | some eventMetadata => .ok { metadata := eventMetadata }

/-- The parts of an inbound `CommandInteraction` that the core reads:
`interaction.data.name`, `interaction.user.id` and `interaction.guildID`
(`none` models null/undefined; real guild ids are nonempty strings, so
JS truthiness of `guildID` is `Option.isSome`). -/
structure Interaction where
  name : String
  userId : String
  guildID : Option String
deriving DecidableEq, Repr

/-- One observable side effect of a dispatch.  Message sends and edits are
recorded as attempts together with their delivery outcome (`deliveryOk`);
`schedule u d` records a `setTimeout` arming deletion of user `u`'s
cooldown entry after `d` milliseconds. -/
inductive Ev
  | createMsg (content : String) (ephemeral : Bool) (deliveryOk : Bool)
  | editMsg (content : String) (deliveryOk : Bool)
  | canExecCall
  | execCall
  | dbLog
  | logInfo
  | logWarn
  | logError
  | schedule (userId : String) (delayMs : Nat)
deriving DecidableEq, Repr

/-- Denial text of the `ownerOnly` guard. -/
def msgOwnerOnly : String := "This command is only available to the bot owner."

/-- Denial text of the `guildOnly` guard. -/
def msgGuildOnly : String := "This command can only be used in a server."

/-- Denial text of the `dmOnly` guard. -/
def msgDMOnly : String := "This command can only be used in DMs."

/-- Denial text of the cooldown guard for `timeLeft` remaining seconds. -/
def msgCooldown (timeLeft : Nat) : String :=
  "Please wait " ++ toString timeLeft ++ " seconds before using this command again."

/-- The dispatcher's unknown-command reply text. -/
def msgNotFound : String := "❌ Command not found."

/-- The dispatcher's generic execution-failure reply text. -/
def msgExecError : String := "❌ An error occurred while executing this command."

/-- JS truthiness of an optional guard flag reached through `guards?.` . -/
def flagSet (g : Option GuardOptions) (f : GuardOptions → Option Bool) : Bool :=
  (g.bind f).getD false

deriving instance DecidableEq for Except

/-- Outcome of one `canExecute` call: the trace of side effects, the
returned boolean (or `Except.error` when the denial send itself threw),
and the cooldown map as left behind. -/
structure CanExecResult where
  trace : List Ev
  result : Except Unit Bool
  cooldowns : List (String × Nat)
deriving DecidableEq, Repr

/-- `BaseCommand.canExecute`.  `ownerId` is `client.config.get('ownerId')`,
`now` is `Date.now()`, and `sendOk` is the delivery outcome of the denial
message should one be attempted (a failed `await interaction.createMessage`
makes `canExecute` throw, there being no catch inside it). -/
def BaseCommand.canExecute (c : BaseCommand) (ownerId : String) (i : Interaction)
    (now : Nat) (sendOk : Bool) : CanExecResult :=
  if flagSet c.guards GuardOptions.ownerOnly ∧ i.userId ≠ ownerId then
    { trace := [.createMsg msgOwnerOnly true sendOk],
      result := if sendOk then .ok false else .error (),
      cooldowns := c.cooldowns }
  else if flagSet c.guards GuardOptions.guildOnly ∧ i.guildID = none then
    { trace := [.createMsg msgGuildOnly true sendOk],
      result := if sendOk then .ok false else .error (),
      cooldowns := c.cooldowns }
  else if flagSet c.guards GuardOptions.dmOnly ∧ i.guildID ≠ none then
    { trace := [.createMsg msgDMOnly true sendOk],
      result := if sendOk then .ok false else .error (),
      cooldowns := c.cooldowns }
  else
    match c.cooldownMs with
    | none => { trace := [], result := .ok true, cooldowns := c.cooldowns }
    | some ms =>
      if ms = 0 then { trace := [], result := .ok true, cooldowns := c.cooldowns }
      else
        match assocGet c.cooldowns i.userId with
        | some cooldownEnd =>
          if cooldownEnd ≠ 0 ∧ now < cooldownEnd then
            { trace := [.createMsg (msgCooldown ((cooldownEnd - now + 999) / 1000)) true sendOk],
              result := if sendOk then .ok false else .error (),
              cooldowns := c.cooldowns }
          else
            { trace := [.schedule i.userId ms],
              result := .ok true,
              cooldowns := assocSet c.cooldowns i.userId (now + ms) }
        | none =>
          { trace := [.schedule i.userId ms],
            result := .ok true,
            cooldowns := assocSet c.cooldowns i.userId (now + ms) }

/-- Oracle outcomes of the external asynchronous calls one dispatch makes,
together with the configuration the dispatcher reads.  `executeResult` is
the behaviour of the resolved handler's `execute()` (`.error` models a
synchronous throw or a rejected promise); `acknowledged` is
`interaction.acknowledged` at the time the catch block runs. -/
structure DispatchEnv where
  ownerId : String
  now : Nat
  denialSendOk : Bool
  unknownSendOk : Bool
  executeResult : Except Unit Unit
  acknowledged : Bool
  errorSendOk : Bool
  dbEnabled : Bool
  dbLogOk : Bool
deriving DecidableEq, Repr

/-- Outcome of one `handleCommand` call: its side-effect trace, whether it
returned normally (`.ok`) or let an error escape to its caller (`.error`),
and the command table as left behind. -/
structure DispatchResult where
  trace : List Ev
  outcome : Except Unit Unit
  commands : List (String × BaseCommand)
deriving DecidableEq, Repr

/-- The usage-reporting tail of the dispatcher's try block: the database
write is attempted only when `databaseUrl` is configured, and its failure
is downgraded to a warning by the `.catch` attached to it. -/
def dbTrace (env : DispatchEnv) : List Ev :=
  if env.dbEnabled then
    .dbLog :: (if env.dbLogOk then [] else [.logWarn])
  else []

/-- The dispatcher's catch block: log the error, then either edit the
pending reply or send a new ephemeral reply, the attempt's own failure
being swallowed by `.catch(() => \x7b\x7d)`. -/
def catchBlock (pre : List Ev) (cmds : List (String × BaseCommand))
    (env : DispatchEnv) : DispatchResult :=
  { trace := pre ++ [.logError,
      if env.acknowledged then .editMsg msgExecError env.errorSendOk
      else .createMsg msgExecError true env.errorSendOk],
    outcome := .ok (),
    commands := cmds }

/-- The try/catch body of `handleCommand` after the command was resolved:
`r` is the outcome of `await command.canExecute(interaction)`.  The
command table keeps the same object, whose cooldown map was updated in
place by `canExecute`. -/
def dispatchAfterGate (cmds : List (String × BaseCommand)) (i : Interaction)
    (env : DispatchEnv) (c : BaseCommand) (r : CanExecResult) : DispatchResult :=
  let cmds' := assocSet cmds i.name { c with cooldowns := r.cooldowns }
  match r.result with
  | .error _ => catchBlock (.canExecCall :: r.trace) cmds' env
  | .ok false =>
    { trace := .canExecCall :: r.trace, outcome := .ok (), commands := cmds' }
  | .ok true =>
    match env.executeResult with
    | .error _ => catchBlock (.canExecCall :: r.trace ++ [.execCall]) cmds' env
    | .ok _ =>
      { trace := .canExecCall :: r.trace ++ [.execCall] ++ dbTrace env ++ [.logInfo],
        outcome := .ok (),
        commands := cmds' }

/-- `InteractionCreateEvent.handleCommand`: resolve the command by
`interaction.data.name`; when absent, send one ephemeral unknown-command
reply (unguarded by any catch) and stop; otherwise gate, execute and
contain failures. -/
def handleCommand (cmds : List (String × BaseCommand)) (i : Interaction)
    (env : DispatchEnv) : DispatchResult :=
  match assocGet cmds i.name with
  | none =>
    { trace := [.createMsg msgNotFound true env.unknownSendOk],
      outcome := if env.unknownSendOk then .ok () else .error (),
      commands := cmds }
  | some c =>
    dispatchAfterGate cmds i env c
      (c.canExecute env.ownerId i env.now env.denialSendOk)

/-- The wrapper that `ExtendedClient.registerEvent` subscribes in place of
the raw handler: `await event.execute(...)` inside a try/catch that logs
and swallows every error. -/
def wrappedHandler (outcome : Except Unit Unit) : List Ev × Except Unit Unit :=
  match outcome with
  | .ok _ => ([.execCall], .ok ())
  | .error _ => ([.execCall, .logError], .ok ())

/-- `ExtendedClient.registerEvent`: record the instance in the name-keyed
event table and subscribe the wrapper, via `once` when `metadata.once` and
via `on` otherwise.  The returned pair is the updated table and the
subscription handed to the gateway emitter. -/
def registerEvent (events : List (String × BaseEvent)) (e : BaseEvent) :
    List (String × BaseEvent) × EventMetadata :=
  (assocSet events e.metadata.name e, e.metadata)

/-- Standard emitter semantics for the subscription `registerEvent` made:
a `once` subscription runs the wrapper on at most the first emission, an
`on` subscription on every emission.  `outcomes` lists the behaviour of
`event.execute` at each successive emission of the named event. -/
def emitterRun (sub : EventMetadata) (outcomes : List (Except Unit Unit)) :
    List (List Ev × Except Unit Unit) :=
  if sub.once then (outcomes.take 1).map wrappedHandler
  else outcomes.map wrappedHandler

/-- Message-send and message-edit attempts of a trace (the user-facing
replies), in order. -/
def isMsgEv : Ev → Bool
  | .createMsg _ _ _ => true
  | .editMsg _ _ => true
  | _ => false

/-- The user-facing reply attempts of a trace. -/
def msgsOf (trace : List Ev) : List Ev :=
  trace.filter isMsgEv

/-- The three pre-cooldown guards of `canExecute` all pass for this
invocation. -/
abbrev gatePasses (c : BaseCommand) (ownerId : String) (i : Interaction) : Prop :=
  ¬(flagSet c.guards GuardOptions.ownerOnly ∧ i.userId ≠ ownerId) ∧
  ¬(flagSet c.guards GuardOptions.guildOnly ∧ i.guildID = none) ∧
  ¬(flagSet c.guards GuardOptions.dmOnly ∧ i.guildID ≠ none)

/-- **C1.** Cooldown gating in `canExecute`: with `cooldownMs > 0` (and the
earlier guards passing, the denial send succeeding), the invocation is
denied exactly when the invoker has a recorded expiry with `now < expiry`;
the denial message reports `ceil((expiry - now) / 1000)` seconds; on
allowance the invoker's expiry becomes `now + cooldownMs`, removal of the
entry is scheduled after `cooldownMs`, and every other user's entry is
untouched. -/
theorem canExecute_cooldown_gate
    (c : BaseCommand) (ownerId : String) (i : Interaction) (now ms : Nat)
    (hpass : gatePasses c ownerId i)
    (hms : c.cooldownMs = some ms) (hpos : 0 < ms) :
    ((c.canExecute ownerId i now true).result = Except.ok false ↔
      ∃ e, assocGet c.cooldowns i.userId = some e ∧ now < e)
    ∧ (∀ e, assocGet c.cooldowns i.userId = some e → now < e →
        (c.canExecute ownerId i now true).trace
          = [Ev.createMsg (msgCooldown ((e - now + 999) / 1000)) true true]
        ∧ (c.canExecute ownerId i now true).cooldowns = c.cooldowns)
    ∧ ((c.canExecute ownerId i now true).result = Except.ok true →
        assocGet (c.canExecute ownerId i now true).cooldowns i.userId
          = some (now + ms)
        ∧ (c.canExecute ownerId i now true).trace = [Ev.schedule i.userId ms]
        ∧ ∀ v, v ≠ i.userId →
            assocGet (c.canExecute ownerId i now true).cooldowns v
              = assocGet c.cooldowns v) := by
  obtain ⟨h1, h2, h3⟩ := hpass
  have hms0 : ¬ ms = 0 := by omega
  cases hget : assocGet c.cooldowns i.userId with
  | none =>
    simp only [BaseCommand.canExecute, if_neg h1, if_neg h2, if_neg h3, hms,
      if_neg hms0, hget]
    refine ⟨by simp, ?_, ?_⟩
    · intro e he
      exact absurd he (by simp)
    · intro _
      exact ⟨assocGet_assocSet_self c.cooldowns i.userId (now + ms), trivial,
        fun v hv => assocGet_assocSet_other c.cooldowns i.userId v (now + ms) hv⟩
  | some e0 =>
    by_cases hlt : now < e0
    · have hcond : e0 ≠ 0 ∧ now < e0 := ⟨by omega, hlt⟩
      simp only [BaseCommand.canExecute, if_neg h1, if_neg h2, if_neg h3, hms,
        if_neg hms0, hget, if_pos hcond]
      refine ⟨by simp [hlt], ?_, by simp⟩
      intro e he hlt'
      have : e = e0 := by simpa using he.symm
      subst this
      exact ⟨by trivial, by trivial⟩
    · have hcond : ¬(e0 ≠ 0 ∧ now < e0) := by omega
      simp only [BaseCommand.canExecute, if_neg h1, if_neg h2, if_neg h3, hms,
        if_neg hms0, hget, if_neg hcond]
      refine ⟨by simp [hlt], ?_, ?_⟩
      · intro e he hlt'
        have : e = e0 := by simpa using he.symm
        omega
      · intro _
        exact ⟨assocGet_assocSet_self c.cooldowns i.userId (now + ms), trivial,
          fun v hv => assocGet_assocSet_other c.cooldowns i.userId v (now + ms) hv⟩

/-- A `ping`-style fixture: `@Command('ping', 'Ping')` with
`@Cooldown(1000)`, no guards, fresh cooldown map. -/
def cmdPing : BaseCommand :=
  { metadata := { name := "ping", description := "Ping" },
    cooldowns := [], permissions := none, guards := none,
    cooldownMs := some 1000 }

/-- `cmdPing` after user `u` invoked at t = 0: expiry 1000 recorded. -/
def cmdPingCooling : BaseCommand :=
  { cmdPing with cooldowns := [("u", 1000)] }

/-- An invocation of `ping` by user `u` outside any guild. -/
def iPing : Interaction :=
  { name := "ping", userId := "u", guildID := none }

/-- **C1 witness.** `cooldownMs = 1000`, invoked at t = 0: denied at
t = 500 with a 1-second wait message, no longer denied at t = 1001, and a
fresh invocation records expiry 1000 for the invoker. -/
theorem canExecute_cooldown_gate_witness :
    ((cmdPingCooling.canExecute "o" iPing 500 true).result = Except.ok false)
    ∧ ((cmdPingCooling.canExecute "o" iPing 500 true).trace
        = [Ev.createMsg (msgCooldown 1) true true])
    ∧ ((cmdPingCooling.canExecute "o" iPing 1001 true).result ≠ Except.ok false)
    ∧ (assocGet (cmdPing.canExecute "o" iPing 0 true).cooldowns "u" = some 1000) := by
  have h500 := canExecute_cooldown_gate cmdPingCooling "o" iPing 500 1000
    (by decide) rfl (by decide)
  have h1001 := canExecute_cooldown_gate cmdPingCooling "o" iPing 1001 1000
    (by decide) rfl (by decide)
  have h0 := canExecute_cooldown_gate cmdPing "o" iPing 0 1000
    (by decide) rfl (by decide)
  refine ⟨h500.1.mpr ⟨1000, by decide, by decide⟩, ?_, ?_, ?_⟩
  · exact (h500.2.1 1000 (by decide) (by decide)).1
  · intro h
    obtain ⟨e, he, hlt⟩ := h1001.1.mp h
    simp only [cmdPingCooling, cmdPing, iPing] at he
    simp [assocGet] at he
    omega
  · exact (h0.2.2 (by decide)).1

/-- A reason for denial, for stating which guard fired. -/
inductive DenyReason
  | ownerOnly
  | guildOnly
  | dmOnly
  | cooldown (secondsLeft : Nat)
deriving DecidableEq, Repr

/-- Spec-side reference for C2, written from the spec's wording: the first
failing guard in the order ownerOnly, guildOnly, dmOnly, cooldown, or
`none` when every guard passes. -/
def specFirstFailingGuard (c : BaseCommand) (ownerId : String)
    (i : Interaction) (now : Nat) : Option DenyReason :=
  if flagSet c.guards GuardOptions.ownerOnly ∧ i.userId ≠ ownerId then
    some .ownerOnly
  else if flagSet c.guards GuardOptions.guildOnly ∧ i.guildID = none then
    some .guildOnly
  else if flagSet c.guards GuardOptions.dmOnly ∧ i.guildID ≠ none then
    some .dmOnly
  else
    match c.cooldownMs with
    | none => none
    | some ms =>
      if ms = 0 then none
      else
        match assocGet c.cooldowns i.userId with
        | some e =>
          if e ≠ 0 ∧ now < e then some (.cooldown ((e - now + 999) / 1000))
          else none
        | none => none

/-- The denial text belonging to each reason. -/
def denialText : DenyReason → String
  | .ownerOnly => msgOwnerOnly
  | .guildOnly => msgGuildOnly
  | .dmOnly => msgDMOnly
  | .cooldown t => msgCooldown t

/-- **C2.** Guard order in `canExecute` is ownerOnly, guildOnly, dmOnly,
cooldown, first match winning: whenever `canExecute` returns `false`, its
trace is exactly one denial message, whose text is that of the first
failing guard in this order. -/
theorem canExecute_guard_order
    (c : BaseCommand) (ownerId : String) (i : Interaction) (now : Nat)
    (sendOk : Bool)
    (hdeny : (c.canExecute ownerId i now sendOk).result = Except.ok false) :
    ∃ reason, specFirstFailingGuard c ownerId i now = some reason
      ∧ (c.canExecute ownerId i now sendOk).trace
          = [Ev.createMsg (denialText reason) true sendOk] := by
  by_cases h1 : flagSet c.guards GuardOptions.ownerOnly ∧ i.userId ≠ ownerId
  · exact ⟨.ownerOnly,
      by simp [specFirstFailingGuard, h1],
      by simp [BaseCommand.canExecute, h1, denialText]⟩
  · by_cases h2 : flagSet c.guards GuardOptions.guildOnly ∧ i.guildID = none
    · exact ⟨.guildOnly,
        by simp [specFirstFailingGuard, h1, h2],
        by simp [BaseCommand.canExecute, h1, h2, denialText]⟩
    · by_cases h3 : flagSet c.guards GuardOptions.dmOnly ∧ i.guildID ≠ none
      · exact ⟨.dmOnly,
          by simp [specFirstFailingGuard, h1, h2, h3],
          by simp [BaseCommand.canExecute, h1, h2, h3, denialText]⟩
      · cases hms : c.cooldownMs with
        | none =>
          exfalso
          simp [BaseCommand.canExecute, h1, h2, h3, hms] at hdeny
        | some ms =>
          by_cases hms0 : ms = 0
          · exfalso
            simp [BaseCommand.canExecute, h1, h2, h3, hms, hms0] at hdeny
          · cases hget : assocGet c.cooldowns i.userId with
            | none =>
              exfalso
              simp [BaseCommand.canExecute, h1, h2, h3, hms, hms0, hget] at hdeny
            | some e =>
              by_cases hc : e ≠ 0 ∧ now < e
              · exact ⟨.cooldown ((e - now + 999) / 1000),
                  by simp [specFirstFailingGuard, h1, h2, h3, hms, hms0, hget, hc],
                  by simp [BaseCommand.canExecute, h1, h2, h3, hms, hms0, hget,
                    hc, denialText]⟩
              · exfalso
                simp [BaseCommand.canExecute, h1, h2, h3, hms, hms0, hget, hc]
                  at hdeny

/-- A `shutdown`-style fixture marked both `@OwnerOnly()` and
`@GuildOnly()`. -/
def cmdShutdown : BaseCommand :=
  { metadata := { name := "shutdown", description := "Stop" },
    cooldowns := [], permissions := none,
    guards := some { ownerOnly := some true, guildOnly := some true },
    cooldownMs := none }

/-- An invocation of `shutdown` by non-owner `u` inside guild `g`. -/
def iShutdownGuild : Interaction :=
  { name := "shutdown", userId := "u", guildID := some "g" }

/-- **C2 witness.** A command marked both ownerOnly and guildOnly, invoked
by a non-owner inside a guild, is denied with the owner message. -/
theorem canExecute_guard_order_witness :
    (cmdShutdown.canExecute "o" iShutdownGuild 7 true).trace
      = [Ev.createMsg msgOwnerOnly true true]
    ∧ specFirstFailingGuard cmdShutdown "o" iShutdownGuild 7
        = some DenyReason.ownerOnly := by
  obtain ⟨reason, hr, ht⟩ :=
    canExecute_guard_order cmdShutdown "o" iShutdownGuild 7 true (by decide)
  have hval : specFirstFailingGuard cmdShutdown "o" iShutdownGuild 7
      = some DenyReason.ownerOnly := by decide
  have hreason : reason = DenyReason.ownerOnly := by
    have := hval.symm.trans hr
    simpa using this.symm
  subst hreason
  exact ⟨ht, hval⟩

/-- When `canExecute` returns `true`, its trace holds no user-facing
message (the only sends inside it sit on denial paths). -/
theorem canExecute_ok_true_no_msgs (c : BaseCommand) (ownerId : String)
    (i : Interaction) (now : Nat) (sendOk : Bool)
    (h : (c.canExecute ownerId i now sendOk).result = Except.ok true) :
    msgsOf (c.canExecute ownerId i now sendOk).trace = [] := by
  by_cases h1 : flagSet c.guards GuardOptions.ownerOnly ∧ i.userId ≠ ownerId
  · exfalso
    simp [BaseCommand.canExecute, h1] at h
    cases sendOk <;> simp_all
  · by_cases h2 : flagSet c.guards GuardOptions.guildOnly ∧ i.guildID = none
    · exfalso
      simp [BaseCommand.canExecute, h1, h2] at h
      cases sendOk <;> simp_all
    · by_cases h3 : flagSet c.guards GuardOptions.dmOnly ∧ i.guildID ≠ none
      · exfalso
        simp [BaseCommand.canExecute, h1, h2, h3] at h
        cases sendOk <;> simp_all
      · cases hms : c.cooldownMs with
        | none => simp [BaseCommand.canExecute, h1, h2, h3, hms, msgsOf]
        | some ms =>
          by_cases hms0 : ms = 0
          · simp [BaseCommand.canExecute, h1, h2, h3, hms, hms0, msgsOf]
          · cases hget : assocGet c.cooldowns i.userId with
            | none =>
              simp [BaseCommand.canExecute, h1, h2, h3, hms, hms0, hget,
                msgsOf, isMsgEv]
            | some e =>
              by_cases hc : e ≠ 0 ∧ now < e
              · exfalso
                simp [BaseCommand.canExecute, h1, h2, h3, hms, hms0, hget, hc]
                  at h
                cases sendOk <;> simp_all
              · simp [BaseCommand.canExecute, h1, h2, h3, hms, hms0, hget, hc,
                  msgsOf, isMsgEv]

/-- **C3.** Dispatch error containment: when the resolved handler's
`execute()` fails, `handleCommand` still returns normally and its trace
holds exactly one user-facing reply, the generic failure notice — an edit
of the pending reply when one was acknowledged, a new ephemeral reply
otherwise. -/
theorem dispatch_contains_execute_error
    (cmds : List (String × BaseCommand)) (i : Interaction) (env : DispatchEnv)
    (c : BaseCommand)
    (hlook : assocGet cmds i.name = some c)
    (hgate : (c.canExecute env.ownerId i env.now env.denialSendOk).result
      = Except.ok true)
    (hexec : env.executeResult = Except.error ()) :
    (handleCommand cmds i env).outcome = Except.ok ()
    ∧ msgsOf (handleCommand cmds i env).trace
        = [if env.acknowledged then Ev.editMsg msgExecError env.errorSendOk
           else Ev.createMsg msgExecError true env.errorSendOk] := by
  have hnomsg := canExecute_ok_true_no_msgs c env.ownerId i env.now
    env.denialSendOk hgate
  simp only [msgsOf] at hnomsg
  cases hack : env.acknowledged <;>
    simp [handleCommand, hlook, dispatchAfterGate, hgate, hexec, catchBlock,
      msgsOf, isMsgEv, List.filter_append, hnomsg, hack]

/-- Baseline dispatch environment: every delivery succeeds, the handler
succeeds, no database, reply not acknowledged. -/
def envBase : DispatchEnv :=
  { ownerId := "o", now := 0, denialSendOk := true, unknownSendOk := true,
    executeResult := .ok (), acknowledged := false, errorSendOk := true,
    dbEnabled := false, dbLogOk := true }

/-- `envBase` with a failing handler. -/
def envExecFail : DispatchEnv :=
  { envBase with executeResult := .error () }

/-- **C3 witness.** Dispatching `ping` whose handler fails: the dispatcher
returns normally and attempts exactly the one generic failure reply. -/
theorem dispatch_contains_execute_error_witness :
    (handleCommand [("ping", cmdPing)] iPing envExecFail).outcome = Except.ok ()
    ∧ msgsOf (handleCommand [("ping", cmdPing)] iPing envExecFail).trace
        = [Ev.createMsg msgExecError true true] := by
  have h := dispatch_contains_execute_error [("ping", cmdPing)] iPing envExecFail
    cmdPing (by decide) (by decide) rfl
  exact ⟨h.1, by simpa using h.2⟩

/-- **C6.** Unknown-command handling: when the name resolves to no
registered command, the dispatcher's trace is exactly one ephemeral
unknown-command reply, neither `canExecute()` nor `execute()` is reached,
and the command table is untouched. -/
theorem dispatch_unknown_command
    (cmds : List (String × BaseCommand)) (i : Interaction) (env : DispatchEnv)
    (hlook : assocGet cmds i.name = none) :
    (handleCommand cmds i env).trace
      = [Ev.createMsg msgNotFound true env.unknownSendOk]
    ∧ Ev.canExecCall ∉ (handleCommand cmds i env).trace
    ∧ Ev.execCall ∉ (handleCommand cmds i env).trace
    ∧ (handleCommand cmds i env).commands = cmds := by
  simp [handleCommand, hlook]

/-- **C6 witness.** Dispatching against an empty command table. -/
theorem dispatch_unknown_command_witness :
    (handleCommand [] iPing envBase).trace = [Ev.createMsg msgNotFound true true]
    ∧ Ev.canExecCall ∉ (handleCommand [] iPing envBase).trace
    ∧ Ev.execCall ∉ (handleCommand [] iPing envBase).trace
    ∧ (handleCommand [] iPing envBase).commands = [] := by
  have h := dispatch_unknown_command [] iPing envBase (by decide)
  exact ⟨by simpa using h.1, h.2.1, h.2.2.1, h.2.2.2⟩

/-- **C9.** Cooldown is charged at the gate: for a guard-free command with
`cooldownMs > 0` and an untracked invoker, the expiry `now + cooldownMs`
is already in the map `canExecute` leaves behind, and a failing
`execute()` does not remove it — the dispatched command's table entry
still carries it after the error path ran. -/
theorem cooldown_charged_at_gate
    (cmds : List (String × BaseCommand)) (i : Interaction) (env : DispatchEnv)
    (c : BaseCommand) (ms : Nat)
    (hlook : assocGet cmds i.name = some c)
    (hguards : c.guards = none)
    (hms : c.cooldownMs = some ms) (hpos : 0 < ms)
    (hnotrack : assocGet c.cooldowns i.userId = none)
    (hexec : env.executeResult = Except.error ()) :
    assocGet (c.canExecute env.ownerId i env.now env.denialSendOk).cooldowns
        i.userId = some (env.now + ms)
    ∧ (handleCommand cmds i env).outcome = Except.ok ()
    ∧ ∃ c', assocGet (handleCommand cmds i env).commands i.name = some c'
        ∧ assocGet c'.cooldowns i.userId = some (env.now + ms) := by
  have hms0 : ¬ ms = 0 := by omega
  have hr : c.canExecute env.ownerId i env.now env.denialSendOk
      = { trace := [.schedule i.userId ms], result := .ok true,
          cooldowns := assocSet c.cooldowns i.userId (env.now + ms) } := by
    simp [BaseCommand.canExecute, hguards, flagSet, hms, hms0, hnotrack]
  refine ⟨?_, ?_, ?_⟩
  · rw [hr]
    exact assocGet_assocSet_self c.cooldowns i.userId (env.now + ms)
  · simp [handleCommand, hlook, dispatchAfterGate, hr, hexec, catchBlock]
  · refine ⟨{ c with cooldowns := assocSet c.cooldowns i.userId (env.now + ms) },
      ?_, assocGet_assocSet_self c.cooldowns i.userId (env.now + ms)⟩
    simp only [handleCommand, hlook, dispatchAfterGate, hr, hexec, catchBlock]
    exact assocGet_assocSet_self cmds i.name _

/-- **C9 witness.** `ping` with a 1000 ms cooldown and a failing handler:
the invoker's expiry 1000 is written at the gate and survives the error. -/
theorem cooldown_charged_at_gate_witness :
    assocGet (cmdPing.canExecute "o" iPing 0 true).cooldowns "u" = some 1000
    ∧ (handleCommand [("ping", cmdPing)] iPing envExecFail).outcome = Except.ok ()
    ∧ ∃ c', assocGet (handleCommand [("ping", cmdPing)] iPing envExecFail).commands
          "ping" = some c'
        ∧ assocGet c'.cooldowns "u" = some 1000 := by
  have h := cooldown_charged_at_gate [("ping", cmdPing)] iPing envExecFail
    cmdPing 1000 (by decide) rfl rfl (by decide) (by decide) rfl
  exact ⟨h.1, h.2.1, h.2.2⟩

theorem applyCalls_cons (reg : RegistryEntry) (c : AttachCall)
    (rest : List AttachCall) :
    applyCalls reg (c :: rest) = applyCalls (applyCall reg c) rest := rfl

/-- The stored command metadata after a decoration sequence is the record
of the last `@Command` call, unchanged fields untouched. -/
theorem applyCalls_command (calls : List AttachCall) : ∀ reg : RegistryEntry,
    (applyCalls reg calls).command
      = match lastCommandCall calls with
        | some (n, d) => some { name := n, description := d }
        | none => reg.command := by
  induction calls with
  | nil => intro reg; rfl
  | cons c rest ih =>
    intro reg
    rw [applyCalls_cons, ih]
    cases hr : lastCommandCall rest with
    | some p =>
      simp [lastCommandCall, hr]
    | none =>
      cases c <;>
        simp [lastCommandCall, hr, applyCall, Command, RequirePermissions,
          GuildOnly, DMOnly, OwnerOnly, NSFW, Cooldown, Event]

/-- The stored event metadata after a decoration sequence is the record of
the last `@Event` call. -/
theorem applyCalls_event (calls : List AttachCall) : ∀ reg : RegistryEntry,
    (applyCalls reg calls).event
      = match lastEventCall calls with
        | some (n, o) => some { name := n, once := o }
        | none => reg.event := by
  induction calls with
  | nil => intro reg; rfl
  | cons c rest ih =>
    intro reg
    rw [applyCalls_cons, ih]
    cases hr : lastEventCall rest with
    | some p =>
      simp [lastEventCall, hr]
    | none =>
      cases c <;>
        simp [lastEventCall, hr, applyCall, Command, RequirePermissions,
          GuildOnly, DMOnly, OwnerOnly, NSFW, Cooldown, Event]

/-- A sequence with no `@RequirePermissions` call contributes no
permissions. -/
theorem permCat_eq_nil (calls : List AttachCall)
    (h : hasPermCall calls = false) : permCat calls = [] := by
  induction calls with
  | nil => rfl
  | cons c rest ih =>
    cases c <;> simp_all [hasPermCall, permCat]

/-- Permission accumulation across a decoration sequence: the guard
record's permission list is the concatenation, in call order, of every
`@RequirePermissions` argument list, seeded with whatever the starting
registry already held. -/
theorem applyCalls_permsOf (calls : List AttachCall) : ∀ reg : RegistryEntry,
    permsOf (applyCalls reg calls)
      = if hasPermCall calls then some ((permsOf reg).getD [] ++ permCat calls)
        else permsOf reg := by
  induction calls with
  | nil => intro reg; simp [applyCalls, hasPermCall]
  | cons c rest ih =>
    intro reg
    rw [applyCalls_cons, ih]
    cases c with
    | requirePermissions ps =>
      have hstep : permsOf (RequirePermissions ps reg)
          = some ((permsOf reg).getD [] ++ ps) := by
        cases hg : reg.guards <;> simp [RequirePermissions, permsOf, hg]
      by_cases hrest : hasPermCall rest
      · simp [applyCall, hstep, hrest, hasPermCall, permCat, List.append_assoc]
      · have hnil : permCat rest = [] :=
          permCat_eq_nil rest (by simpa using hrest)
        simp [applyCall, hstep, hrest, hasPermCall, permCat, hnil]
    | command n d =>
      simp [applyCall, Command, hasPermCall, permCat, permsOf]
    | cooldown ms =>
      simp [applyCall, Cooldown, hasPermCall, permCat, permsOf]
    | event n o =>
      simp [applyCall, Event, hasPermCall, permCat, permsOf]
    | guildOnly =>
      have hstep : permsOf (GuildOnly reg) = permsOf reg := by
        cases hg : reg.guards <;> simp [GuildOnly, permsOf, hg]
      simp [applyCall, hstep, hasPermCall, permCat]
    | dmOnly =>
      have hstep : permsOf (DMOnly reg) = permsOf reg := by
        cases hg : reg.guards <;> simp [DMOnly, permsOf, hg]
      simp [applyCall, hstep, hasPermCall, permCat]
    | ownerOnly =>
      have hstep : permsOf (OwnerOnly reg) = permsOf reg := by
        cases hg : reg.guards <;> simp [OwnerOnly, permsOf, hg]
      simp [applyCall, hstep, hasPermCall, permCat]
    | nsfw =>
      have hstep : permsOf (NSFW reg) = permsOf reg := by
        cases hg : reg.guards <;> simp [NSFW, permsOf, hg]
      simp [applyCall, hstep, hasPermCall, permCat]

/-- The `guildOnly` flag after a decoration sequence: `some true` exactly
when some `@GuildOnly()` call occurred, the starting value otherwise. -/
theorem applyCalls_flag_guildOnly (calls : List AttachCall) :
    ∀ reg : RegistryEntry,
    regFlag (applyCalls reg calls) GuardOptions.guildOnly
      = if AttachCall.guildOnly ∈ calls then some true
        else regFlag reg GuardOptions.guildOnly := by
  induction calls with
  | nil => intro reg; simp [applyCalls]
  | cons c rest ih =>
    intro reg
    rw [applyCalls_cons, ih]
    cases c <;> cases hg : reg.guards <;>
      simp [applyCall, Command, RequirePermissions, GuildOnly, DMOnly,
        OwnerOnly, NSFW, Cooldown, Event, regFlag, hg, List.mem_cons]

/-- The `dmOnly` flag after a decoration sequence. -/
theorem applyCalls_flag_dmOnly (calls : List AttachCall) :
    ∀ reg : RegistryEntry,
    regFlag (applyCalls reg calls) GuardOptions.dmOnly
      = if AttachCall.dmOnly ∈ calls then some true
        else regFlag reg GuardOptions.dmOnly := by
  induction calls with
  | nil => intro reg; simp [applyCalls]
  | cons c rest ih =>
    intro reg
    rw [applyCalls_cons, ih]
    cases c <;> cases hg : reg.guards <;>
      simp [applyCall, Command, RequirePermissions, GuildOnly, DMOnly,
        OwnerOnly, NSFW, Cooldown, Event, regFlag, hg, List.mem_cons]

/-- The `ownerOnly` flag after a decoration sequence. -/
theorem applyCalls_flag_ownerOnly (calls : List AttachCall) :
    ∀ reg : RegistryEntry,
    regFlag (applyCalls reg calls) GuardOptions.ownerOnly
      = if AttachCall.ownerOnly ∈ calls then some true
        else regFlag reg GuardOptions.ownerOnly := by
  induction calls with
  | nil => intro reg; simp [applyCalls]
  | cons c rest ih =>
    intro reg
    rw [applyCalls_cons, ih]
    cases c <;> cases hg : reg.guards <;>
      simp [applyCall, Command, RequirePermissions, GuildOnly, DMOnly,
        OwnerOnly, NSFW, Cooldown, Event, regFlag, hg, List.mem_cons]

/-- The `nsfw` flag after a decoration sequence. -/
theorem applyCalls_flag_nsfw (calls : List AttachCall) :
    ∀ reg : RegistryEntry,
    regFlag (applyCalls reg calls) GuardOptions.nsfw
      = if AttachCall.nsfw ∈ calls then some true
        else regFlag reg GuardOptions.nsfw := by
  induction calls with
  | nil => intro reg; simp [applyCalls]
  | cons c rest ih =>
    intro reg
    rw [applyCalls_cons, ih]
    cases c <;> cases hg : reg.guards <;>
      simp [applyCall, Command, RequirePermissions, GuildOnly, DMOnly,
        OwnerOnly, NSFW, Cooldown, Event, regFlag, hg, List.mem_cons]

theorem mergeGuards_name (m : CommandMetadata) (g : Option GuardOptions) :
    (mergeGuards m g).name = m.name := by
  cases g <;> rfl

theorem mergeGuards_description (m : CommandMetadata) (g : Option GuardOptions) :
    (mergeGuards m g).description = m.description := by
  cases g <;> rfl

/-- Closed form of `constructBaseCommand` when command metadata exists. -/
theorem constructBaseCommand_some (reg : RegistryEntry) (m : CommandMetadata)
    (h : reg.command = some m) :
    constructBaseCommand reg
      = Except.ok
        ({ metadata := mergeGuards m reg.guards, cooldowns := [],
           permissions := reg.guards.bind GuardOptions.permissions,
           guards := reg.guards, cooldownMs := reg.cooldown },
         { reg with command := some (mergeGuards m reg.guards) }) := by
  simp only [constructBaseCommand, h]
  cases hg : reg.guards <;> simp [hg]

/-- **C4.** Fail-fast construction: from a fresh class identity and any
decoration sequence, `BaseCommand` (resp. `BaseEvent`) construction throws
`DefinitionError` exactly when the sequence holds no `@Command` (resp.
`@Event`) call; otherwise it succeeds and the instance's identity fields
are exactly those of the last such call. -/
theorem construction_fail_fast (calls : List AttachCall) :
    (lastCommandCall calls = none →
      constructBaseCommand (applyCalls emptyRegistry calls)
        = Except.error DefinitionError.missingCommandDecorator)
    ∧ (∀ n d, lastCommandCall calls = some (n, d) →
        ∃ inst reg', constructBaseCommand (applyCalls emptyRegistry calls)
            = Except.ok (inst, reg')
          ∧ inst.metadata.name = n ∧ inst.metadata.description = d)
    ∧ (lastEventCall calls = none →
        constructBaseEvent (applyCalls emptyRegistry calls)
          = Except.error DefinitionError.missingEventDecorator)
    ∧ (∀ n o, lastEventCall calls = some (n, o) →
        ∃ ev, constructBaseEvent (applyCalls emptyRegistry calls) = Except.ok ev
          ∧ ev.metadata.name = n ∧ ev.metadata.once = o) := by
  have hc := applyCalls_command calls emptyRegistry
  have he := applyCalls_event calls emptyRegistry
  refine ⟨?_, ?_, ?_, ?_⟩
  · intro h
    have hc' : (applyCalls emptyRegistry calls).command = none := by
      rw [hc, h]; rfl
    simp [constructBaseCommand, hc']
  · intro n d h
    have hc' : (applyCalls emptyRegistry calls).command
        = some { name := n, description := d } := by
      rw [hc, h]
    rw [constructBaseCommand_some _ _ hc']
    exact ⟨_, _, rfl, mergeGuards_name _ _, mergeGuards_description _ _⟩
  · intro h
    have he' : (applyCalls emptyRegistry calls).event = none := by
      rw [he, h]; rfl
    simp [constructBaseEvent, he']
  · intro n o h
    have he' : (applyCalls emptyRegistry calls).event
        = some { name := n, once := o } := by
      rw [he, h]
    exact ⟨{ metadata := { name := n, once := o } },
      by simp [constructBaseEvent, he'], rfl, rfl⟩

/-- **C4 witness.** A class with only `@Event` metadata fails `BaseCommand`
construction and succeeds `BaseEvent` construction; a class decorated
`@Command('a','x')` then `@Command('b','y')` constructs with the second
pair and fails `BaseEvent` construction. -/
theorem construction_fail_fast_witness :
    constructBaseCommand (applyCalls emptyRegistry [AttachCall.event "ready" true])
      = Except.error DefinitionError.missingCommandDecorator
    ∧ (∃ inst reg', constructBaseCommand (applyCalls emptyRegistry
          [AttachCall.command "a" "x", AttachCall.command "b" "y"])
        = Except.ok (inst, reg')
        ∧ inst.metadata.name = "b" ∧ inst.metadata.description = "y")
    ∧ constructBaseEvent (applyCalls emptyRegistry
          [AttachCall.command "a" "x", AttachCall.command "b" "y"])
        = Except.error DefinitionError.missingEventDecorator
    ∧ (∃ ev, constructBaseEvent (applyCalls emptyRegistry
          [AttachCall.event "ready" true]) = Except.ok ev
        ∧ ev.metadata.name = "ready" ∧ ev.metadata.once = true) :=
  ⟨(construction_fail_fast [AttachCall.event "ready" true]).1 (by decide),
   (construction_fail_fast
      [AttachCall.command "a" "x", AttachCall.command "b" "y"]).2.1 "b" "y"
      (by decide),
   (construction_fail_fast
      [AttachCall.command "a" "x", AttachCall.command "b" "y"]).2.2.1 (by decide),
   (construction_fail_fast [AttachCall.event "ready" true]).2.2.2 "ready" true
      (by decide)⟩

/-- **C5.** Permission union with order preservation: over any decoration
sequence from a fresh class, the guard record's permission list is the
concatenation of all `@RequirePermissions` argument lists in call order
(duplicates kept, absent when no such call ran); each boolean guard flag is
`some true` exactly when its setter occurs somewhere in the sequence, and
the flag fields agree across any permutation of the sequence. -/
theorem guard_merge_semantics (calls : List AttachCall) :
    (permsOf (applyCalls emptyRegistry calls)
      = if hasPermCall calls then some (permCat calls) else none)
    ∧ (regFlag (applyCalls emptyRegistry calls) GuardOptions.guildOnly
        = if AttachCall.guildOnly ∈ calls then some true else none)
    ∧ (regFlag (applyCalls emptyRegistry calls) GuardOptions.ownerOnly
        = if AttachCall.ownerOnly ∈ calls then some true else none)
    ∧ (regFlag (applyCalls emptyRegistry calls) GuardOptions.dmOnly
        = if AttachCall.dmOnly ∈ calls then some true else none)
    ∧ (regFlag (applyCalls emptyRegistry calls) GuardOptions.nsfw
        = if AttachCall.nsfw ∈ calls then some true else none)
    ∧ ∀ calls₂, calls.Perm calls₂ →
        (regFlag (applyCalls emptyRegistry calls) GuardOptions.guildOnly
          = regFlag (applyCalls emptyRegistry calls₂) GuardOptions.guildOnly)
        ∧ (regFlag (applyCalls emptyRegistry calls) GuardOptions.ownerOnly
          = regFlag (applyCalls emptyRegistry calls₂) GuardOptions.ownerOnly)
        ∧ (regFlag (applyCalls emptyRegistry calls) GuardOptions.dmOnly
          = regFlag (applyCalls emptyRegistry calls₂) GuardOptions.dmOnly)
        ∧ (regFlag (applyCalls emptyRegistry calls) GuardOptions.nsfw
          = regFlag (applyCalls emptyRegistry calls₂) GuardOptions.nsfw) := by
  refine ⟨?_, ?_, ?_, ?_, ?_, ?_⟩
  · simpa [permsOf, emptyRegistry] using applyCalls_permsOf calls emptyRegistry
  · simpa [regFlag, emptyRegistry] using
      applyCalls_flag_guildOnly calls emptyRegistry
  · simpa [regFlag, emptyRegistry] using
      applyCalls_flag_ownerOnly calls emptyRegistry
  · simpa [regFlag, emptyRegistry] using
      applyCalls_flag_dmOnly calls emptyRegistry
  · simpa [regFlag, emptyRegistry] using
      applyCalls_flag_nsfw calls emptyRegistry
  · intro calls₂ hperm
    refine ⟨?_, ?_, ?_, ?_⟩
    · rw [applyCalls_flag_guildOnly calls emptyRegistry,
        applyCalls_flag_guildOnly calls₂ emptyRegistry]
      exact if_congr hperm.mem_iff rfl rfl
    · rw [applyCalls_flag_ownerOnly calls emptyRegistry,
        applyCalls_flag_ownerOnly calls₂ emptyRegistry]
      exact if_congr hperm.mem_iff rfl rfl
    · rw [applyCalls_flag_dmOnly calls emptyRegistry,
        applyCalls_flag_dmOnly calls₂ emptyRegistry]
      exact if_congr hperm.mem_iff rfl rfl
    · rw [applyCalls_flag_nsfw calls emptyRegistry,
        applyCalls_flag_nsfw calls₂ emptyRegistry]
      exact if_congr hperm.mem_iff rfl rfl

/-- **C5 witness.** Attaching `['A']` then `['B']` yields `['A','B']`, and
swapping two flag-setting calls leaves the `guildOnly` flag unchanged. -/
theorem guard_merge_semantics_witness :
    permsOf (applyCalls emptyRegistry
        [AttachCall.requirePermissions ["A"], AttachCall.requirePermissions ["B"]])
      = some ["A", "B"]
    ∧ regFlag (applyCalls emptyRegistry [AttachCall.guildOnly, AttachCall.nsfw])
          GuardOptions.guildOnly
        = regFlag (applyCalls emptyRegistry [AttachCall.nsfw, AttachCall.guildOnly])
          GuardOptions.guildOnly :=
  ⟨(guard_merge_semantics
      [AttachCall.requirePermissions ["A"], AttachCall.requirePermissions ["B"]]).1.trans
      (by decide),
   ((guard_merge_semantics [AttachCall.guildOnly, AttachCall.nsfw]).2.2.2.2.2
      [AttachCall.nsfw, AttachCall.guildOnly]
      (List.Perm.swap AttachCall.nsfw AttachCall.guildOnly [])).1⟩

/-- **C7 counterexample.** Take a class decorated `@Command('a','b')` and
`@GuildOnly()`.  Before construction the registry's command record has
`guildOnly = none`; after construction it has `guildOnly = some true`:
construction does NOT leave the registry's record unchanged (the instance
aliases and mutates it), refuting the copied-immutable-snapshot claim. -/
theorem metadata_snapshot_counterexample :
    ((applyCalls emptyRegistry
        [AttachCall.command "a" "b", AttachCall.guildOnly]).command.map
      CommandMetadata.guildOnly = some none)
    ∧ ((constructBaseCommand (applyCalls emptyRegistry
          [AttachCall.command "a" "b", AttachCall.guildOnly])).toOption.map
        (fun p => p.2.command.map CommandMetadata.guildOnly)
      = some (some (some true))) := by
  decide

theorem mergeGuards_idem (m : CommandMetadata) (g : Option GuardOptions) :
    mergeGuards (mergeGuards m g) g = mergeGuards m g := by
  cases g with
  | none => rfl
  | some g0 =>
    cases hg : g0.guildOnly <;> cases ho : g0.ownerOnly <;> cases hn : g0.nsfw <;>
      simp [mergeGuards, hg, ho, hn]

/-- **C7 amended.** The instance's metadata aliases the registry's record
rather than copying it: construction succeeds whenever command metadata
exists, writes the guard flags `guildOnly`, `ownerOnly` and `nsfw` (not
`dmOnly`, which is no `CommandMetadata` field and is read from the guard
record directly by `canExecute`) through the alias, and leaves the
registry's record equal to the instance's metadata; the other registry
keys are untouched, and constructing a second instance of the same class
reads the updated record yet yields the same metadata (idempotent merge). -/
theorem metadata_alias_semantics (reg : RegistryEntry) (m : CommandMetadata)
    (h : reg.command = some m) :
    ∃ inst reg', constructBaseCommand reg = Except.ok (inst, reg')
      ∧ inst.metadata = mergeGuards m reg.guards
      ∧ reg'.command = some inst.metadata
      ∧ reg'.guards = reg.guards
      ∧ reg'.cooldown = reg.cooldown
      ∧ reg'.event = reg.event
      ∧ ∃ inst2 reg'', constructBaseCommand reg' = Except.ok (inst2, reg'')
          ∧ inst2.metadata = inst.metadata
          ∧ reg''.command = reg'.command := by
  rw [constructBaseCommand_some reg m h]
  refine ⟨_, _, rfl, rfl, rfl, rfl, rfl, rfl, ?_⟩
  rw [constructBaseCommand_some _ (mergeGuards m reg.guards) rfl]
  exact ⟨_, _, rfl, mergeGuards_idem m reg.guards,
    by simp [mergeGuards_idem m reg.guards]⟩

/-- **C7 amended witness.** The alias semantics at the concrete decorated
class of the counterexample. -/
theorem metadata_alias_semantics_witness :
    ∃ inst reg',
      constructBaseCommand (applyCalls emptyRegistry
          [AttachCall.command "a" "b", AttachCall.guildOnly])
        = Except.ok (inst, reg')
      ∧ inst.metadata = mergeGuards { name := "a", description := "b" }
          (applyCalls emptyRegistry
            [AttachCall.command "a" "b", AttachCall.guildOnly]).guards
      ∧ reg'.command = some inst.metadata
      ∧ reg'.guards = (applyCalls emptyRegistry
          [AttachCall.command "a" "b", AttachCall.guildOnly]).guards
      ∧ reg'.cooldown = (applyCalls emptyRegistry
          [AttachCall.command "a" "b", AttachCall.guildOnly]).cooldown
      ∧ reg'.event = (applyCalls emptyRegistry
          [AttachCall.command "a" "b", AttachCall.guildOnly]).event
      ∧ ∃ inst2 reg'', constructBaseCommand reg' = Except.ok (inst2, reg'')
          ∧ inst2.metadata = inst.metadata
          ∧ reg''.command = reg'.command :=
  metadata_alias_semantics _ _ (by decide)

/-- **C8 counterexample.** `shutdown` (ownerOnly) invoked by a non-owner
with the denial send failing: the trace holds TWO user-facing reply
attempts — the failed denial and then the generic failure notice the
dispatcher's catch block sends on top — refuting "a failed denial send is
swallowed and causes no additional user-facing reply". -/
theorem delivery_failure_counterexample :
    (msgsOf (handleCommand [("shutdown", cmdShutdown)] iShutdownGuild
        { envBase with denialSendOk := false }).trace).length = 2 := by
  decide

/-- **C8 amended.** A failure sending the generic failure notice is
swallowed outright (no escalation, no further reply).  A failure sending a
denial message, however, propagates out of `canExecute` into the
dispatcher's catch block, which logs it and attempts one additional
generic failure reply (itself swallowed on failure); the dispatcher still
returns normally either way. -/
theorem delivery_failure_semantics
    (cmds : List (String × BaseCommand)) (i : Interaction) (env : DispatchEnv)
    (c : BaseCommand)
    (hlook : assocGet cmds i.name = some c) :
    ((c.canExecute env.ownerId i env.now env.denialSendOk).result = Except.ok true →
      env.executeResult = Except.error () →
      (handleCommand cmds i env).outcome = Except.ok ()
      ∧ msgsOf (handleCommand cmds i env).trace
          = [if env.acknowledged then Ev.editMsg msgExecError env.errorSendOk
             else Ev.createMsg msgExecError true env.errorSendOk])
    ∧ ((c.canExecute env.ownerId i env.now env.denialSendOk).result
          = Except.error () →
      (handleCommand cmds i env).outcome = Except.ok ()
      ∧ msgsOf (handleCommand cmds i env).trace
          = msgsOf (c.canExecute env.ownerId i env.now env.denialSendOk).trace
            ++ [if env.acknowledged then Ev.editMsg msgExecError env.errorSendOk
                else Ev.createMsg msgExecError true env.errorSendOk]) := by
  constructor
  · intro hgate hexec
    have hnomsg := canExecute_ok_true_no_msgs c env.ownerId i env.now
      env.denialSendOk hgate
    simp only [msgsOf] at hnomsg
    cases hack : env.acknowledged <;>
      simp [handleCommand, hlook, dispatchAfterGate, hgate, hexec, catchBlock,
        msgsOf, isMsgEv, List.filter_append, hnomsg, hack]
  · intro hthrew
    cases hack : env.acknowledged <;>
      simp [handleCommand, hlook, dispatchAfterGate, hthrew, catchBlock,
        msgsOf, isMsgEv, List.filter_append, hack]

/-- **C8 amended witness.** A failing generic-notice send (after a handler
error on `ping`) is swallowed with no further reply; a failing denial send
on ownerOnly `shutdown` yields the denial attempt plus one generic notice. -/
theorem delivery_failure_semantics_witness :
    ((handleCommand [("ping", cmdPing)] iPing
        { envExecFail with errorSendOk := false }).outcome = Except.ok ()
      ∧ msgsOf (handleCommand [("ping", cmdPing)] iPing
          { envExecFail with errorSendOk := false }).trace
        = [Ev.createMsg msgExecError true false])
    ∧ ((handleCommand [("shutdown", cmdShutdown)] iShutdownGuild
        { envBase with denialSendOk := false }).outcome = Except.ok ()
      ∧ msgsOf (handleCommand [("shutdown", cmdShutdown)] iShutdownGuild
          { envBase with denialSendOk := false }).trace
        = [Ev.createMsg msgOwnerOnly true false,
           Ev.createMsg msgExecError true true]) := by
  constructor
  · have h := (delivery_failure_semantics [("ping", cmdPing)] iPing
      { envExecFail with errorSendOk := false } cmdPing (by decide)).1
      (by decide) rfl
    exact ⟨h.1, h.2.trans (by decide)⟩
  · have h := (delivery_failure_semantics [("shutdown", cmdShutdown)]
      iShutdownGuild { envBase with denialSendOk := false } cmdShutdown
      (by decide)).2 (by decide)
    exact ⟨h.1, h.2.trans (by decide)⟩

/-- Whether the wrapper's returned outcome is a normal return. -/
def exceptIsOk : Except Unit Unit → Bool
  | .ok _ => true
  | .error _ => false

/-- **C10.** Event-handler error containment and subscription multiplicity:
the wrapper `registerEvent` subscribes returns normally for every handler
behaviour (an error is logged, never propagated to the emitter), and
across `n` emissions it runs `min n 1` times for a `once = true` instance
and `n` times otherwise. -/
theorem event_wrapper_containment (e : BaseEvent)
    (events : List (String × BaseEvent)) (outcomes : List (Except Unit Unit)) :
    (((emitterRun (registerEvent events e).2 outcomes).all
        fun p => exceptIsOk p.2) = true)
    ∧ ((emitterRun (registerEvent events e).2 outcomes).length
        = if e.metadata.once then min outcomes.length 1 else outcomes.length)
    ∧ (wrappedHandler (Except.error ())).1 = [Ev.execCall, Ev.logError]
    ∧ (wrappedHandler (Except.error ())).2 = Except.ok () := by
  have hall : ∀ p ∈ emitterRun (registerEvent events e).2 outcomes,
      p.2 = Except.ok () := by
    intro p hp
    unfold emitterRun at hp
    split at hp <;>
      · obtain ⟨o, ho, rfl⟩ := List.mem_map.mp hp
        cases o <;> rfl
  refine ⟨?_, ?_, rfl, rfl⟩
  · simp only [List.all_eq_true]
    intro p hp
    rw [hall p hp]
    rfl
  · cases honce : e.metadata.once <;>
      simp [emitterRun, registerEvent, honce, Nat.min_comm]

end Disbot
